import Mathlib

/-!
Verification of the spreadsheet-backed content API (FastAPI app in `app/main.py`).

The development shallowly embeds the pure row-processing logic of the
endpoints: the `detalle_proyecto` HTML renderer (`get_project_html`), the
project listing (`get_projects`), the slug lookup (`get_project_by_slug`)
and the home-section mapping (`get_home`).  Spreadsheet rows are embedded as
records of their relevant fields; Python string methods used by the code
(`str.strip`, `str.upper`, `str.lower`, `int(...)`) are embedded as
structurally recursive functions over the character list of a string so that
all definitions evaluate inside the kernel; Python's stable `list.sort(key=...)`
is embedded as a stable ascending insertion sort by the same key.
-/

/-- Whitespace test used by Python `str.strip` (ASCII range). -/
def pyIsSpace (c : Char) : Bool :=
  c = ' ' || c = '\t' || c = '\n' || c = '\r' || c = '\x0b' || c = '\x0c'

/-- Model of Python `str.strip()`: drop leading and trailing whitespace. -/
def pyStrip (s : String) : String :=
  ⟨((s.data.dropWhile pyIsSpace).reverse.dropWhile pyIsSpace).reverse⟩

/-- Character-wise upper-casing as in Python `str.upper()` (ASCII letters). -/
def pyUpperChar (c : Char) : Char :=
  if 'a' ≤ c ∧ c ≤ 'z' then Char.ofNat (c.toNat - 32) else c

/-- Model of Python `str.upper()`. -/
def pyUpper (s : String) : String :=
  ⟨s.data.map pyUpperChar⟩

/-- Character-wise lower-casing as in Python `str.lower()` (ASCII letters). -/
def pyLowerChar (c : Char) : Char :=
  if 'A' ≤ c ∧ c ≤ 'Z' then Char.ofNat (c.toNat + 32) else c

/-- Model of Python `str.lower()`. -/
def pyLower (s : String) : String :=
  ⟨s.data.map pyLowerChar⟩

/-- Decimal digit value of a character, if it is a digit. -/
def pyDigit (c : Char) : Option Nat :=
  if '0' ≤ c ∧ c ≤ '9' then some (c.toNat - 48) else none

/-- Accumulate the value of a digit string; `none` on a non-digit. -/
def pyDigitsAux : List Char → Nat → Option Nat
  | [], n => some n
  | c :: cs, n =>
    match pyDigit c with
    | some d => pyDigitsAux cs (10 * n + d)
    | none => none

/-- Value of a non-empty all-digit character list, else `none`. -/
def pyDigits : List Char → Option Nat
  | [] => none
  | c :: cs => pyDigitsAux (c :: cs) 0

/-- Model of Python `int(s)` on strings: optional surrounding whitespace,
optional sign, a non-empty run of decimal digits; `none` models the
`ValueError` that the source catches. -/
def pyInt (s : String) : Option Int :=
  match (pyStrip s).data with
  | '-' :: rest => (pyDigits rest).map (fun n => -(n : Int))
  | '+' :: rest => (pyDigits rest).map (fun n => (n : Int))
  | rest => (pyDigits rest).map (fun n => (n : Int))

/-- A row of the `detalle_proyecto` worksheet, with the fields read by
`get_project_html`.  A cell that is empty in the sheet is the empty string
(`gspread.get_all_records` always materialises every header's key). -/
structure Row where
  ID_proyecto : String
  orden : Int
  nivel_texto : String
  visibilidad : String
  texto : String
  deriving DecidableEq

/-- A row of the projects worksheet, with the fields read by `get_projects`,
`get_project` and `get_project_by_slug`.  An empty `id` cell is modelled as
`0` (Python falsiness of the cell value). -/
structure ProjectRecord where
  id : Int
  orden : Int
  visible : String
  slug : String
  deriving DecidableEq

/-- A row of the `descripcion_general` worksheet read by `get_home`. -/
structure HomeRecord where
  seccion : String
  texto : String
  deriving DecidableEq

/-- Stable insertion of `r` into a list sorted ascending by `key`: `r` is
placed after every element whose key is `≤ key r`. -/
def insertSorted {α : Type} (key : α → Int) (r : α) : List α → List α
  | [] => [r]
  | x :: xs => if key x ≤ key r then x :: insertSorted key r xs else r :: x :: xs

/-- Model of Python `list.sort(key=...)`: a stable ascending sort by `key`,
realized as left-to-right stable insertion (any stable sort computes the
same list). -/
def pysortBy {α : Type} (key : α → Int) (l : List α) : List α :=
  l.foldl (fun acc r => insertSorted key r acc) []

/-- Key used by every `sort(key=lambda x: x['orden'])` in the source. -/
def ordenKey (r : Row) : Int := r.orden

/-- One iteration of the row-selection loop of `get_project_html`
(main.py lines 193-199): keep the record when `ID_proyecto` matches the
requested project id, `nivel_texto` is non-empty (truthy) and `visibilidad`
is not `'no'`; after each append the accumulated list is re-sorted by
`orden`. -/
def selStep (project_id : String) (rows : List Row) (record : Row) : List Row :=
  if record.ID_proyecto == project_id then
    if record.nivel_texto != "" && record.visibilidad != "no" then
      pysortBy ordenKey (rows ++ [record])
    else rows
  else rows

/-- The row-selection loop of `get_project_html` (main.py lines 192-199),
starting from the empty `rows` list. -/
def selectRows (project_id : String) (records : List Row) : List Row :=
  records.foldl (selStep project_id) []

/-- The Boolean row filter implicit in the selection loop of
`get_project_html`. -/
def rowPass (project_id : String) (r : Row) : Bool :=
  (r.ID_proyecto == project_id) && (r.nivel_texto != "" && r.visibilidad != "no")

/-- The filter-then-sort-once pipeline stated by the spec (one filter over the
input, then a single stable ascending sort of the surviving set). -/
def filterThenSortOnce (project_id : String) (records : List Row) : List Row :=
  pysortBy ordenKey (records.filter (rowPass project_id))

/-- The static CSS block `css_styles` that `get_project_html` prepends to
the rendered fragments (main.py lines 202-289), transcribed with braces
and apostrophes escaped. -/
def cssStyles : String :=
  "
    <style>
        /* Estilos generales */
        body \x7b
            font-family: \x27Merriweather\x27, \x27Helvetica Neue\x27, Arial, sans-serif;
            color: #565656;
            line-height: 1.6;
        \x7d
        
        /* Títulos */
        h1, h2, h3, h4, h5, h6 \x7b
            font-family: \x27Merriweather Sans\x27, \x27Helvetica Neue\x27, Arial, sans-serif;
            font-weight: 700;
            margin-top: 1.5rem;
            margin-bottom: 1rem;
            color: #333;
        \x7d
        
        h1 \x7b font-size: 2.5rem; \x7d
        h2 \x7b font-size: 2rem; \x7d
        h3 \x7b font-size: 1.75rem; \x7d
        h4 \x7b font-size: 1.5rem; \x7d
        h5 \x7b font-size: 1.25rem; \x7d
        h6 \x7b font-size: 1rem; \x7d
        
        /* Párrafos */
        p \x7b
            margin-bottom: 1rem;
            font-size: 1rem;
        \x7d
        
        /* Enlaces */
        a \x7b
            color: #f4623a;
            text-decoration: none;
            transition: color 0.3s;
        \x7d
        
        a:hover \x7b
            color: #d14521;
            text-decoration: underline;
        \x7d
        
        /* Imágenes */
        img \x7b
            max-width: 100%;
            height: auto;
            display: block;
            margin: 1.5rem auto;
            border-radius: 8px;
            box-shadow: 0 4px 6px rgba(0,0,0,0.1);
        \x7d
        
        /* Líneas divisoras */
        hr \x7b
            margin: 2rem 0;
            border: 0;
            border-top: 3px solid #f4623a;
            opacity: 0.3;
        \x7d
        
        /* iframes */
        iframe \x7b
            border: 1px solid #ddd;
            border-radius: 8px;
            box-shadow: 0 4px 6px rgba(0,0,0,0.1);
            margin: 1.5rem 0;
        \x7d
        
        /* Utilidades de texto */
        .text-center \x7b text-align: center; \x7d
        .text-start \x7b text-align: left; \x7d
        .text-end \x7b text-align: right; \x7d
        
        /* Márgenes */
        .mt-0 \x7b margin-top: 0; \x7d
        .my-3 \x7b margin-top: 1rem; margin-bottom: 1rem; \x7d
        .mx-auto \x7b margin-left: auto; margin-right: auto; \x7d
        
        /* Responsive */
        @media (max-width: 768px) \x7b
            h1 \x7b font-size: 2rem; \x7d
            h2 \x7b font-size: 1.75rem; \x7d
            h3 \x7b font-size: 1.5rem; \x7d
            iframe \x7b height: 400px !important; \x7d
        \x7d
    </style>
    "

/-- The tag-dispatch table of `get_project_html` (main.py lines 296-351):
the Python `match` over the normalized `nivel_texto`, one branch per tag,
with the paragraph fallback as the wildcard case. -/
def renderTag (nivel texto : String) : String :=
  if nivel = "H1" ∨ nivel = "H1_CENTRO" then
    "<h1 class=\x27text-center mt-0\x27>" ++ texto ++ "</h1>"
  else if nivel = "H1_IZQUIERDA" then
    "<h1 class=\x27text-start mt-0\x27>" ++ texto ++ "</h1>"
  else if nivel = "H1_DERECHA" then
    "<h1 class=\x27text-end mt-0\x27>" ++ texto ++ "</h1>"
  else if nivel = "H2" ∨ nivel = "H2_CENTRO" then
    "<h2 class=\x27text-center mt-0\x27>" ++ texto ++ "</h2>"
  else if nivel = "H2_IZQUIERDA" then
    "<h2 class=\x27text-start mt-0\x27>" ++ texto ++ "</h2>"
  else if nivel = "H2_DERECHA" then
    "<h2 class=\x27text-end mt-0\x27>" ++ texto ++ "</h2>"
  else if nivel = "H3" ∨ nivel = "H3_CENTRO" then
    "<h3 class=\x27text-center mt-0\x27>" ++ texto ++ "</h3>"
  else if nivel = "H3_IZQUIERDA" then
    "<h3 class=\x27text-start mt-0\x27>" ++ texto ++ "</h3>"
  else if nivel = "H3_DERECHA" then
    "<h3 class=\x27text-end mt-0\x27>" ++ texto ++ "</h3>"
  else if nivel = "H4" ∨ nivel = "H4_CENTRO" then
    "<h4 class=\x27text-center mt-0\x27>" ++ texto ++ "</h4>"
  else if nivel = "H4_IZQUIERDA" then
    "<h4 class=\x27text-start mt-0\x27>" ++ texto ++ "</h4>"
  else if nivel = "H4_DERECHA" then
    "<h4 class=\x27text-end mt-0\x27>" ++ texto ++ "</h4>"
  else if nivel = "H5" ∨ nivel = "H5_CENTRO" then
    "<h5 class=\x27text-center mt-0\x27>" ++ texto ++ "</h5>"
  else if nivel = "H5_IZQUIERDA" then
    "<h5 class=\x27text-start mt-0\x27>" ++ texto ++ "</h5>"
  else if nivel = "H5_DERECHA" then
    "<h5 class=\x27text-end mt-0\x27>" ++ texto ++ "</h5>"
  else if nivel = "H6" ∨ nivel = "H6_CENTRO" then
    "<h6 class=\x27text-center mt-0\x27>" ++ texto ++ "</h6>"
  else if nivel = "H6_IZQUIERDA" then
    "<h6 class=\x27text-start mt-0\x27>" ++ texto ++ "</h6>"
  else if nivel = "H6_DERECHA" then
    "<h6 class=\x27text-end mt-0\x27>" ++ texto ++ "</h6>"
  else if nivel = "P" then
    "<p>" ++ texto ++ "</p>"
  else if nivel = "IMG" then
    "<img class=\x27img-fluid mx-auto\x27 src=\x27" ++ texto ++ "\x27 alt=\x27" ++ texto ++ "\x27 />"
  else if nivel = "A" then
    "<a href=\x27" ++ texto ++ "\x27 target=\x27_blank\x27 class=\x27text-center\x27>" ++ texto ++ "</a>"
  else if nivel = "BR" then
    "<br />"
  else if nivel = "HR" then
    "<hr class=\x27divider\x27 />"
  else if nivel = "IFRAME_LINK" then
    "<iframe width=\x27100%\x27 height=\x27600px\x27 class=\x27text-center my-3\x27 src=\x27" ++ texto ++ "\x27 frameborder=\x270\x27 allowfullscreen></iframe>"
  else if nivel = "HTML_RAW" then
    "<span class=\x27my-3\x27>" ++ texto ++ "</span>"
  else if nivel = "CSS" then
    "<style>" ++ texto ++ "</style>"
  else
    "<p>" ++ texto ++ "</p>"

/-- The tags that own a non-fallback branch of the dispatch table. -/
def knownTags : List String :=
  ["H1", "H1_CENTRO", "H1_IZQUIERDA", "H1_DERECHA",
   "H2", "H2_CENTRO", "H2_IZQUIERDA", "H2_DERECHA",
   "H3", "H3_CENTRO", "H3_IZQUIERDA", "H3_DERECHA",
   "H4", "H4_CENTRO", "H4_IZQUIERDA", "H4_DERECHA",
   "H5", "H5_CENTRO", "H5_IZQUIERDA", "H5_DERECHA",
   "H6", "H6_CENTRO", "H6_IZQUIERDA", "H6_DERECHA",
   "P", "IMG", "A", "BR", "HR", "IFRAME_LINK", "HTML_RAW", "CSS"]

/-- The HTML fragment one row contributes: the source normalizes
`row['nivel_texto']` with `.strip().upper()` and dispatches on the result
(main.py line 293). -/
def renderRow (row : Row) : String :=
  renderTag (pyUpper (pyStrip row.nivel_texto)) row.texto

/-- The body of `get_project_html` (main.py lines 192-354): select and sort
the rows, then fold them left-to-right onto the static CSS prefix.
The endpoint returns this string wrapped as a JSON object. -/
def get_project_html (project_id : String) (records : List Row) : String :=
  (selectRows project_id records).foldl (fun html row => html ++ renderRow row) cssStyles

/-- Concatenation of the fragments of a list of rows. -/
def htmlConcat (l : List Row) : String :=
  l.foldr (fun row acc => renderRow row ++ acc) ""

/-- The body of `get_projects` (main.py lines 85-95): sort all records by
`orden`, then keep those whose `visible` is not `'no'`, then those with a
truthy `id`. -/
def get_projects (records : List ProjectRecord) : List ProjectRecord :=
  ((pysortBy (fun x => x.orden) records).filter
      (fun x => x.visible != "no")).filter (fun x => x.id != 0)

/-- The body of `get_project` (main.py lines 108-113): first record with the
requested id, else `none` (the endpoint renders `none` as `{}`). -/
def get_project (project_id : Int) (records : List ProjectRecord) : Option ProjectRecord :=
  records.find? (fun r => r.id == project_id)

/-- Result of `get_project_by_slug`: either a record, the
`{"error": "Project found but has no ID", "slug": ...}` payload, or the
`{"error": "Project not found", "slug": ..., "message": ...}` payload.
All three are ordinary return values of the endpoint, not raised errors. -/
inductive SlugResult where
  | found (r : ProjectRecord)
  | foundNoId (slug : String)
  | notFound (slug : String)
  deriving DecidableEq

/-- First record whose slug matches `slug` case-insensitively (the first
loop of `get_project_by_slug`, main.py lines 130-135). -/
def slugHit (records : List ProjectRecord) (slug : String) : Option ProjectRecord :=
  records.find? (fun r => pyLower r.slug == pyLower slug)

/-- The body of `get_project_by_slug` (main.py lines 126-151): look the slug
up case-insensitively; a hit without id returns the no-id payload; on a miss,
parse the slug as an integer and retry by id; otherwise the not-found
payload. -/
def get_project_by_slug (records : List ProjectRecord) (slug : String) : SlugResult :=
  match slugHit records slug with
  | some r => if r.id = 0 then .foundNoId slug else .found r
  | none =>
    match pyInt slug with
    | some project_id =>
      match records.find? (fun r => r.id == project_id) with
      | some r => .found r
      | none => .notFound slug
    | none => .notFound slug

/-- Insert-or-assign on an association list with Python `dict` semantics: an
existing key keeps its position and gets the new value, a new key is appended
at the end. -/
def dictUpsert : List (String × String) → String → String → List (String × String)
  | [], k, v => [(k, v)]
  | (k', v') :: rest, k, v =>
    if k' = k then (k', v) :: rest else (k', v') :: dictUpsert rest k v

/-- The body of `get_home` (main.py lines 72-75): the dict comprehension
`{record['seccion']: record['texto'] for record in records}`, built row by
row with Python `dict` insert-or-assign semantics. -/
def get_home (records : List HomeRecord) : List (String × String) :=
  records.foldl (fun m r => dictUpsert m r.seccion r.texto) []

/-- A spreadsheet cell of the `orden` column as `gspread.get_all_records`
materialises it: an `Int` for a numeric cell, a `String` for a textual one —
in particular an empty cell arrives as the string `""`. -/
inductive CellVal where
  | int (n : Int)
  | str (s : String)
  deriving DecidableEq

/-- Whether a cell value is numeric at Python runtime. -/
def cellIsInt : CellVal → Bool
  | .int _ => true
  | .str _ => false

/-- Python string `<`: lexicographic by code point. -/
def pyStrLt : List Char → List Char → Bool
  | [], [] => false
  | [], _ :: _ => true
  | _ :: _, [] => false
  | a :: as, b :: bs => if a < b then true else if b < a then false else pyStrLt as bs

/-- Python `<` between two cell values: defined within one runtime type,
a `TypeError` — modelled as `none` — between an `int` and a `str`. -/
def pyLtCell : CellVal → CellVal → Option Bool
  | .int a, .int b => some (decide (a < b))
  | .str a, .str b => some (pyStrLt a.data b.data)
  | _, _ => none

/-- A `detalle_proyecto` row with its `orden` cell kept raw.  The `Row`
model above is the special case in which every `orden` cell is numeric;
this general model also represents an absent (empty-string) `orden` cell
and hence the `TypeError` path of `rows.sort`. -/
structure RowG where
  ID_proyecto : String
  ordenCell : CellVal
  nivel_texto : String
  visibilidad : String
  texto : String
  deriving DecidableEq

/-- Stable insertion with Python comparison semantics: each element
comparison may raise (`none`), and the raise aborts the sort.  `r` is
placed before the first element it compares strictly less than. -/
def insertSortedF {α : Type} (key : α → CellVal) (r : α) : List α → Option (List α)
  | [] => some [r]
  | x :: xs =>
    match pyLtCell (key r) (key x) with
    | none => none
    | some true => some (r :: x :: xs)
    | some false => (insertSortedF key r xs).map (fun l => x :: l)

/-- Model of Python `list.sort(key=...)` on raw cells: a stable ascending
sort that raises `TypeError` (`none`) exactly when it compares an `int` key
with a `str` key. -/
def pysortFBy {α : Type} (key : α → CellVal) (l : List α) : Option (List α) :=
  l.foldl (fun st r => st.bind (insertSortedF key r)) (some [])

/-- The Boolean row filter of the selection loop, over general rows. -/
def rowPassG (project_id : String) (r : RowG) : Bool :=
  (r.ID_proyecto == project_id) && (r.nivel_texto != "" && r.visibilidad != "no")

/-- One iteration of the selection loop of `get_project_html` over general
rows: an exception raised by `rows.sort` (main.py line 199) aborts the
request, so the loop state is an `Option` that `none` absorbs. -/
def selStepG (project_id : String) (state : Option (List RowG)) (record : RowG) :
    Option (List RowG) :=
  match state with
  | none => none
  | some rows =>
    if record.ID_proyecto == project_id then
      if record.nivel_texto != "" && record.visibilidad != "no" then
        pysortFBy (fun x => x.ordenCell) (rows ++ [record])
      else some rows
    else some rows

/-- The selection loop of `get_project_html` over general rows: `some rows`
when every performed comparison was well-typed, `none` when the sort
raised. -/
def selectRowsG (project_id : String) (records : List RowG) : Option (List RowG) :=
  records.foldl (selStepG project_id) (some [])

/-- All keys of the list share one runtime type flag. -/
def homF {α : Type} (key : α → CellVal) (t : Bool) (l : List α) : Prop :=
  ∀ x ∈ l, cellIsInt (key x) = t

/-! ### Properties of the stable sort model -/

theorem mem_insertSorted {α : Type} (key : α → Int) (r a : α) (l : List α) :
    a ∈ insertSorted key r l ↔ a = r ∨ a ∈ l := by
  induction l with
  | nil => simp [insertSorted]
  | cons x xs ih =>
    by_cases h : key x ≤ key r
    · simp only [insertSorted, if_pos h, List.mem_cons, ih]
      tauto
    · simp only [insertSorted, if_neg h, List.mem_cons]

theorem pairwise_insertSorted {α : Type} (key : α → Int) (r : α) {l : List α}
    (h : List.Pairwise (fun a b => key a ≤ key b) l) :
    List.Pairwise (fun a b => key a ≤ key b) (insertSorted key r l) := by
  induction l with
  | nil => simp [insertSorted]
  | cons x xs ih =>
    rcases List.pairwise_cons.1 h with ⟨hx, hxs⟩
    by_cases hle : key x ≤ key r
    · rw [show insertSorted key r (x :: xs) = x :: insertSorted key r xs by
        simp [insertSorted, hle]]
      refine List.pairwise_cons.2 ⟨?_, ih hxs⟩
      intro b hb
      rcases (mem_insertSorted key r b xs).1 hb with rfl | hbxs
      · exact hle
      · exact hx b hbxs
    · rw [show insertSorted key r (x :: xs) = r :: x :: xs by simp [insertSorted, hle]]
      refine List.pairwise_cons.2 ⟨?_, List.pairwise_cons.2 ⟨hx, hxs⟩⟩
      intro b hb
      rcases List.mem_cons.1 hb with rfl | hbxs
      · omega
      · have := hx b hbxs
        omega

theorem pysortBy_append_singleton {α : Type} (key : α → Int) (l : List α) (r : α) :
    pysortBy key (l ++ [r]) = insertSorted key r (pysortBy key l) := by
  simp [pysortBy, List.foldl_append]

theorem sorted_pysortBy {α : Type} (key : α → Int) (l : List α) :
    List.Pairwise (fun a b => key a ≤ key b) (pysortBy key l) := by
  induction l using List.reverseRecOn with
  | nil => simp [pysortBy]
  | append_singleton l a ih =>
    rw [pysortBy_append_singleton]
    exact pairwise_insertSorted key a ih

theorem mem_pysortBy {α : Type} (key : α → Int) (a : α) (l : List α) :
    a ∈ pysortBy key l ↔ a ∈ l := by
  induction l using List.reverseRecOn with
  | nil => simp [pysortBy]
  | append_singleton l x ih =>
    rw [pysortBy_append_singleton]
    simp only [mem_insertSorted, ih, List.mem_append, List.mem_singleton]
    tauto

theorem insertSorted_of_le {α : Type} (key : α → Int) (r : α) (l : List α)
    (h : ∀ x ∈ l, key x ≤ key r) :
    insertSorted key r l = l ++ [r] := by
  induction l with
  | nil => simp [insertSorted]
  | cons x xs ih =>
    rw [show insertSorted key r (x :: xs) = x :: insertSorted key r xs by
      simp [insertSorted, h x (by simp)]]
    rw [ih (fun y hy => h y (by simp [hy]))]
    simp

theorem insertSorted_of_gt {α : Type} (key : α → Int) (r : α) (l : List α)
    (h : ∀ x ∈ l, ¬ key x ≤ key r) :
    insertSorted key r l = r :: l := by
  cases l with
  | nil => rfl
  | cons x xs => simp [insertSorted, h x (by simp)]

theorem pysortBy_of_pairwise {α : Type} (key : α → Int) {l : List α}
    (h : List.Pairwise (fun a b => key a ≤ key b) l) : pysortBy key l = l := by
  induction l using List.reverseRecOn with
  | nil => rfl
  | append_singleton l a ih =>
    rw [pysortBy_append_singleton]
    rw [List.pairwise_append] at h
    rw [ih h.1]
    exact insertSorted_of_le key a l (fun x hx => h.2.2 x hx a (by simp))

theorem pysortBy_idem {α : Type} (key : α → Int) (l : List α) :
    pysortBy key (pysortBy key l) = pysortBy key l :=
  pysortBy_of_pairwise key (sorted_pysortBy key l)

theorem filter_insertSorted {α : Type} (key : α → Int) (p : α → Bool) (r : α) {l : List α}
    (h : List.Pairwise (fun a b => key a ≤ key b) l) :
    (insertSorted key r l).filter p =
      if p r then insertSorted key r (l.filter p) else l.filter p := by
  induction l with
  | nil =>
    by_cases hp : p r <;> simp [insertSorted, hp]
  | cons x xs ih =>
    rcases List.pairwise_cons.1 h with ⟨hx, hxs⟩
    by_cases hle : key x ≤ key r
    · rw [show insertSorted key r (x :: xs) = x :: insertSorted key r xs by
        simp [insertSorted, hle]]
      by_cases hp : p r
      · by_cases hpx : p x
        · rw [List.filter_cons_of_pos hpx, ih hxs, if_pos hp,
            List.filter_cons_of_pos hpx, if_pos hp,
            show insertSorted key r (x :: xs.filter p) = x :: insertSorted key r (xs.filter p) by
              simp [insertSorted, hle]]
        · rw [List.filter_cons_of_neg hpx, ih hxs, if_pos hp,
            List.filter_cons_of_neg hpx, if_pos hp]
      · rw [List.filter_cons, ih hxs, if_neg hp, if_neg hp, ← List.filter_cons]
    · rw [show insertSorted key r (x :: xs) = r :: x :: xs by simp [insertSorted, hle]]
      by_cases hp : p r
      · rw [List.filter_cons_of_pos hp, if_pos hp]
        refine (insertSorted_of_gt key r ((x :: xs).filter p) ?_).symm
        intro y hy
        have hyx : y ∈ x :: xs := List.mem_of_mem_filter hy
        rcases List.mem_cons.1 hyx with rfl | hyxs
        · exact hle
        · have := hx y hyxs
          omega
      · rw [List.filter_cons_of_neg hp, if_neg hp]

theorem filter_pysortBy {α : Type} (key : α → Int) (p : α → Bool) (l : List α) :
    (pysortBy key l).filter p = pysortBy key (l.filter p) := by
  induction l using List.reverseRecOn with
  | nil => rfl
  | append_singleton l a ih =>
    rw [pysortBy_append_singleton,
      filter_insertSorted key p a (sorted_pysortBy key l), List.filter_append]
    by_cases hp : p a
    · rw [if_pos hp, ih, show List.filter p [a] = [a] by simp [hp],
        pysortBy_append_singleton]
    · rw [if_neg hp, ih, show List.filter p [a] = [] by simp [hp], List.append_nil]

/-! ### The selection loop is filter-then-sort-once -/

theorem selStep_foldl (project_id : String) (records : List Row) :
    ∀ m : List Row,
      records.foldl (selStep project_id) (pysortBy ordenKey m) =
        pysortBy ordenKey (m ++ records.filter (rowPass project_id)) := by
  induction records with
  | nil => intro m; simp
  | cons r rs ih =>
    intro m
    simp only [List.foldl_cons, List.filter_cons]
    by_cases h1 : (r.ID_proyecto == project_id) = true
    · by_cases h2 : (r.nivel_texto != "" && r.visibilidad != "no") = true
      · have hpass : rowPass project_id r = true := by simp [rowPass, h1, h2]
        rw [show selStep project_id (pysortBy ordenKey m) r =
            pysortBy ordenKey (pysortBy ordenKey m ++ [r]) by simp [selStep, h1, h2]]
        rw [pysortBy_append_singleton, pysortBy_idem, ← pysortBy_append_singleton]
        rw [ih (m ++ [r]), hpass]
        simp
      · have hpass : rowPass project_id r = false := by
          simp only [rowPass, h1, Bool.true_and]
          exact Bool.not_eq_true _ ▸ (by simpa using h2)
        rw [show selStep project_id (pysortBy ordenKey m) r = pysortBy ordenKey m by
          simp [selStep, h1, h2]]
        rw [ih m, hpass]
        simp
    · have hpass : rowPass project_id r = false := by
        simp only [rowPass]
        simp only [Bool.not_eq_true] at h1
        simp [h1]
      rw [show selStep project_id (pysortBy ordenKey m) r = pysortBy ordenKey m by
        simp [selStep, h1]]
      rw [ih m, hpass]
      simp

theorem selectRows_eq (project_id : String) (records : List Row) :
    selectRows project_id records = filterThenSortOnce project_id records := by
  have h := selStep_foldl project_id records []
  simpa [selectRows, filterThenSortOnce, pysortBy] using h

theorem mem_selectRows (project_id : String) (records : List Row) (r : Row) :
    r ∈ selectRows project_id records ↔
      r ∈ records ∧ rowPass project_id r = true := by
  rw [selectRows_eq, filterThenSortOnce, mem_pysortBy, List.mem_filter]

/-! ### The rendered output as a concatenation of fragments -/

theorem foldl_renderRow (l : List Row) :
    ∀ a : String, l.foldl (fun html row => html ++ renderRow row) a = a ++ htmlConcat l := by
  induction l with
  | nil => intro a; simp [htmlConcat]
  | cons x xs ih =>
    intro a
    simp only [List.foldl_cons, htmlConcat, List.foldr_cons]
    rw [ih]
    simp only [htmlConcat, String.append_assoc]

theorem get_project_html_eq (project_id : String) (records : List Row) :
    get_project_html project_id records =
      cssStyles ++ htmlConcat (selectRows project_id records) := by
  rw [get_project_html, foldl_renderRow]

theorem htmlConcat_append (l1 l2 : List Row) :
    htmlConcat (l1 ++ l2) = htmlConcat l1 ++ htmlConcat l2 := by
  induction l1 with
  | nil => simp [htmlConcat]
  | cons x xs ih =>
    simp only [List.cons_append, htmlConcat, List.foldr_cons] at *
    rw [ih, String.append_assoc]

theorem htmlConcat_cons (r : Row) (l : List Row) :
    htmlConcat (r :: l) = renderRow r ++ htmlConcat l := rfl

/-- In a list sorted ascending by `key`, an element with a strictly smaller
key splits the list strictly before one with a larger key. -/
theorem sorted_split {α : Type} (key : α → Int) {l : List α} {A B : α}
    (hs : List.Pairwise (fun a b => key a ≤ key b) l) (hA : A ∈ l) (hB : B ∈ l)
    (hlt : key A < key B) :
    ∃ l1 l2 l3, l = l1 ++ A :: (l2 ++ B :: l3) := by
  induction l with
  | nil => cases hA
  | cons x xs ih =>
    rcases List.pairwise_cons.1 hs with ⟨hx, hxs⟩
    by_cases hxA : x = A
    · subst hxA
      have hBxs : B ∈ xs := by
        rcases List.mem_cons.1 hB with rfl | h
        · omega
        · exact h
      obtain ⟨s, t, hst⟩ := List.append_of_mem hBxs
      exact ⟨[], s, t, by simp [hst]⟩
    · have hA' : A ∈ xs := by
        rcases List.mem_cons.1 hA with rfl | h
        · exact absurd rfl hxA
        · exact h
      have hB' : B ∈ xs := by
        rcases List.mem_cons.1 hB with rfl | h
        · have := hx A hA'
          omega
        · exact h
      obtain ⟨l1, l2, l3, hl⟩ := ih hxs hA' hB'
      exact ⟨x :: l1, l2, l3, by simp [hl]⟩

/-! ### Properties of the dict model used by `get_home` -/

theorem lookup_dictUpsert (m : List (String × String)) (k v s : String) :
    List.lookup s (dictUpsert m k v) = if s = k then some v else List.lookup s m := by
  induction m with
  | nil =>
    by_cases h : s = k
    · subst h
      simp [dictUpsert, List.lookup]
    · rw [if_neg h]
      simp [dictUpsert, List.lookup, beq_eq_false_iff_ne.2 h]
  | cons p rest ih =>
    obtain ⟨a, b⟩ := p
    by_cases hk : a = k
    · subst hk
      simp only [dictUpsert, if_pos rfl]
      by_cases h : s = a
      · subst h
        simp [List.lookup]
      · rw [if_neg h]
        simp [List.lookup, beq_eq_false_iff_ne.2 h]
    · simp only [dictUpsert, if_neg hk]
      by_cases h : s = a
      · subst h
        rw [if_neg (fun e => hk e)]
        simp [List.lookup]
      · simp only [List.lookup, beq_eq_false_iff_ne.2 h]
        exact ih

theorem lookup_foldl_dictUpsert (records : List HomeRecord) :
    ∀ (m : List (String × String)) (s : String),
      List.lookup s (records.foldl (fun acc r => dictUpsert acc r.seccion r.texto) m) =
        Option.or
          (((records.filter (fun r => r.seccion == s)).getLast?).map (fun r => r.texto))
          (List.lookup s m) := by
  induction records using List.reverseRecOn with
  | nil =>
    intro m s
    simp
  | append_singleton rs r ih =>
    intro m s
    rw [List.foldl_append, List.foldl_cons, List.foldl_nil, lookup_dictUpsert,
      List.filter_append]
    by_cases h : s = r.seccion
    · subst h
      rw [if_pos rfl]
      rw [show List.filter (fun x => x.seccion == r.seccion) [r] = [r] by simp]
      rw [List.getLast?_concat]
      simp
    · rw [if_neg h]
      rw [show List.filter (fun x => x.seccion == s) [r] = [] by
        simp [beq_eq_false_iff_ne.2 (fun e => h e.symm)]]
      rw [List.append_nil]
      exact ih m s

theorem keys_dictUpsert_subset (m : List (String × String)) (k v : String) (x : String) :
    x ∈ (dictUpsert m k v).map Prod.fst → x ∈ m.map Prod.fst ∨ x = k := by
  induction m with
  | nil =>
    intro h
    simp [dictUpsert] at h
    exact Or.inr h
  | cons p rest ih =>
    obtain ⟨a, b⟩ := p
    by_cases hk : a = k
    · intro h
      simp only [dictUpsert, if_pos hk, List.map_cons, List.mem_cons] at h ⊢
      tauto
    · intro h
      simp only [dictUpsert, if_neg hk, List.map_cons, List.mem_cons] at h ⊢
      rcases h with rfl | h
      · tauto
      · rcases ih h with h' | h' <;> tauto

theorem nodup_keys_dictUpsert (m : List (String × String)) (k v : String)
    (h : (m.map Prod.fst).Nodup) : ((dictUpsert m k v).map Prod.fst).Nodup := by
  induction m with
  | nil => simp [dictUpsert]
  | cons p rest ih =>
    obtain ⟨a, b⟩ := p
    simp only [List.map_cons, List.nodup_cons] at h
    by_cases hk : a = k
    · simp only [dictUpsert, if_pos hk, List.map_cons, List.nodup_cons]
      exact ⟨h.1, h.2⟩
    · simp only [dictUpsert, if_neg hk, List.map_cons, List.nodup_cons]
      refine ⟨?_, ih h.2⟩
      intro hmem
      rcases keys_dictUpsert_subset rest k v a hmem with h' | h'
      · exact h.1 h'
      · exact hk h'

theorem nodup_keys_foldl_dictUpsert (records : List HomeRecord) :
    ∀ m : List (String × String), (m.map Prod.fst).Nodup →
      (((records.foldl (fun acc r => dictUpsert acc r.seccion r.texto) m)).map Prod.fst).Nodup := by
  induction records with
  | nil => intro m h; simpa using h
  | cons r rs ih =>
    intro m h
    simp only [List.foldl_cons]
    exact ih _ (nodup_keys_dictUpsert m r.seccion r.texto h)

/-! ### Unfolding the row filter -/

theorem rowPass_iff (project_id : String) (r : Row) :
    rowPass project_id r = true ↔
      (r.ID_proyecto = project_id ∧ r.nivel_texto ≠ "" ∧ r.visibilidad ≠ "no") := by
  simp [rowPass, Bool.and_eq_true, beq_iff_eq, bne_iff_ne]

/-! ### Properties of the fallible sort model -/

theorem pyLtCell_some_flag {a b : CellVal} {v : Bool} (h : pyLtCell a b = some v) :
    cellIsInt a = cellIsInt b := by
  cases a <;> cases b <;> simp_all [pyLtCell, cellIsInt]

theorem pyLtCell_isSome_of_flag {a b : CellVal} (h : cellIsInt a = cellIsInt b) :
    pyLtCell a b ≠ none := by
  cases a <;> cases b <;> simp_all [pyLtCell, cellIsInt]

theorem mem_insertSortedF {α : Type} (key : α → CellVal) (r : α) :
    ∀ (l l' : List α), insertSortedF key r l = some l' →
      ∀ a, a ∈ l' ↔ a = r ∨ a ∈ l := by
  intro l
  induction l with
  | nil =>
    intro l' h a
    simp only [insertSortedF, Option.some.injEq] at h
    subst h
    simp
  | cons x xs ih =>
    intro l' h a
    simp only [insertSortedF] at h
    cases hc : pyLtCell (key r) (key x) with
    | none => rw [hc] at h; exact absurd h (by simp)
    | some v =>
      rw [hc] at h
      cases v with
      | true =>
        simp only [Option.some.injEq] at h
        subst h
        simp only [List.mem_cons]
      | false =>
        simp only at h
        cases hrec : insertSortedF key r xs with
        | none => rw [hrec] at h; exact absurd h (by simp)
        | some m =>
          rw [hrec] at h
          simp only [Option.map_some', Option.some.injEq] at h
          subst h
          simp only [List.mem_cons, ih m hrec a]
          tauto

theorem insertSortedF_head_flag {α : Type} (key : α → CellVal) (r x : α) (xs : List α)
    {l' : List α} (h : insertSortedF key r (x :: xs) = some l') :
    cellIsInt (key r) = cellIsInt (key x) := by
  simp only [insertSortedF] at h
  cases hc : pyLtCell (key r) (key x) with
  | none => rw [hc] at h; exact absurd h (by simp)
  | some v => exact pyLtCell_some_flag hc

theorem homF_insertSortedF {α : Type} (key : α → CellVal) (r : α) {t : Bool}
    {l l' : List α} (h : insertSortedF key r l = some l')
    (hl : homF key t l) (hr : cellIsInt (key r) = t) : homF key t l' := by
  intro a ha
  rcases (mem_insertSortedF key r l l' h a).1 ha with rfl | hal
  · exact hr
  · exact hl a hal

theorem homF_exists_insertSortedF {α : Type} (key : α → CellVal) (r : α)
    {l l' : List α} (h : insertSortedF key r l = some l')
    (hl : ∃ t, homF key t l) : ∃ t, homF key t l' := by
  obtain ⟨t, ht⟩ := hl
  cases l with
  | nil =>
    simp only [insertSortedF, Option.some.injEq] at h
    subst h
    exact ⟨cellIsInt (key r), by simp [homF]⟩
  | cons x xs =>
    have hrx := insertSortedF_head_flag key r x xs h
    exact ⟨t, homF_insertSortedF key r h ht (hrx.trans (ht x (by simp)))⟩

theorem insertSortedF_isSome {α : Type} (key : α → CellVal) (r : α) {t : Bool} :
    ∀ l : List α, homF key t l → cellIsInt (key r) = t →
      ∃ l', insertSortedF key r l = some l' := by
  intro l
  induction l with
  | nil => intro _ _; exact ⟨[r], rfl⟩
  | cons x xs ih =>
    intro hl hr
    cases hc : pyLtCell (key r) (key x) with
    | none =>
      exact absurd hc (pyLtCell_isSome_of_flag (hr.trans (hl x (by simp)).symm))
    | some v =>
      cases v with
      | true => exact ⟨r :: x :: xs, by simp [insertSortedF, hc]⟩
      | false =>
        obtain ⟨m, hm⟩ := ih (fun y hy => hl y (by simp [hy])) hr
        exact ⟨x :: m, by simp [insertSortedF, hc, hm]⟩

theorem foldl_insertSortedF_none {α : Type} (key : α → CellVal) :
    ∀ l : List α, l.foldl (fun st r => st.bind (insertSortedF key r)) none = none := by
  intro l
  induction l with
  | nil => rfl
  | cons r rs ih => simpa using ih

theorem foldl_insertSortedF_char {α : Type} (key : α → CellVal) :
    ∀ (l init res : List α),
      l.foldl (fun st r => st.bind (insertSortedF key r)) (some init) = some res →
      (∃ t, homF key t init) →
      (∃ t, homF key t res) ∧ ∀ a, (a ∈ res ↔ a ∈ init ∨ a ∈ l) := by
  intro l
  induction l with
  | nil =>
    intro init res h hhom
    simp only [List.foldl_nil, Option.some.injEq] at h
    subst h
    exact ⟨hhom, fun a => by simp⟩
  | cons r rs ih =>
    intro init res h hhom
    simp only [List.foldl_cons, Option.some_bind] at h
    cases hI : insertSortedF key r init with
    | none =>
      rw [hI] at h
      rw [foldl_insertSortedF_none key rs] at h
      exact absurd h (by simp)
    | some init' =>
      rw [hI] at h
      obtain ⟨hhom', hmem'⟩ := ih init' res h (homF_exists_insertSortedF key r hI hhom)
      refine ⟨hhom', fun a => ?_⟩
      rw [hmem' a]
      have := mem_insertSortedF key r init init' hI a
      simp only [List.mem_cons]
      tauto

theorem foldl_insertSortedF_isSome {α : Type} (key : α → CellVal) {t : Bool} :
    ∀ (l init : List α), homF key t init → homF key t l →
      ∃ res, l.foldl (fun st r => st.bind (insertSortedF key r)) (some init) = some res := by
  intro l
  induction l with
  | nil => intro init _ _; exact ⟨init, rfl⟩
  | cons r rs ih =>
    intro init hinit hl
    obtain ⟨init', hI⟩ :=
      insertSortedF_isSome key r init hinit (hl r (by simp))
    have hinit' : homF key t init' :=
      homF_insertSortedF key r hI hinit (hl r (by simp))
    obtain ⟨res, hres⟩ := ih init' hinit' (fun y hy => hl y (by simp [hy]))
    exact ⟨res, by simp only [List.foldl_cons, Option.some_bind]; rw [hI]; exact hres⟩

theorem pysortFBy_char {α : Type} (key : α → CellVal) {l res : List α}
    (h : pysortFBy key l = some res) :
    (∃ t, homF key t res) ∧ ∀ a, (a ∈ res ↔ a ∈ l) := by
  obtain ⟨hhom, hmem⟩ :=
    foldl_insertSortedF_char key l [] res h ⟨true, by simp [homF]⟩
  exact ⟨hhom, fun a => by simpa using hmem a⟩

theorem pysortFBy_isSome {α : Type} (key : α → CellVal) {t : Bool} {l : List α}
    (h : homF key t l) : ∃ res, pysortFBy key l = some res :=
  foldl_insertSortedF_isSome key l [] (by simp [homF]) h

/-! ### The fallible selection loop -/

theorem selStepG_some (project_id : String) (init : List RowG) (r : RowG) :
    selStepG project_id (some init) r =
      if rowPassG project_id r = true then
        pysortFBy (fun x => x.ordenCell) (init ++ [r])
      else some init := by
  simp only [selStepG, rowPassG]
  by_cases h1 : (r.ID_proyecto == project_id) = true
  · by_cases h2 : (r.nivel_texto != "" && r.visibilidad != "no") = true
    · simp [h1, h2]
    · simp [h1, h2]
  · simp [h1]

theorem foldl_selStepG_none (project_id : String) :
    ∀ rs : List RowG, rs.foldl (selStepG project_id) none = none := by
  intro rs
  induction rs with
  | nil => rfl
  | cons r rs ih => simpa [selStepG] using ih

theorem rowPassG_iff (project_id : String) (r : RowG) :
    rowPassG project_id r = true ↔
      (r.ID_proyecto = project_id ∧ r.nivel_texto ≠ "" ∧ r.visibilidad ≠ "no") := by
  simp [rowPassG, Bool.and_eq_true, beq_iff_eq, bne_iff_ne]

theorem foldl_selStepG_char (project_id : String) :
    ∀ (records : List RowG) (init res : List RowG),
      records.foldl (selStepG project_id) (some init) = some res →
      (∃ t, homF (fun x => x.ordenCell) t init) →
      (∃ t, homF (fun x => x.ordenCell) t res) ∧
        ∀ a, (a ∈ res ↔ a ∈ init ∨ (a ∈ records ∧ rowPassG project_id a = true)) := by
  intro records
  induction records with
  | nil =>
    intro init res h hhom
    simp only [List.foldl_nil, Option.some.injEq] at h
    subst h
    exact ⟨hhom, fun a => by simp⟩
  | cons r rs ih =>
    intro init res h hhom
    simp only [List.foldl_cons] at h
    rw [selStepG_some] at h
    by_cases hp : rowPassG project_id r = true
    · rw [if_pos hp] at h
      cases hI : pysortFBy (fun x => x.ordenCell) (init ++ [r]) with
      | none =>
        rw [hI, foldl_selStepG_none project_id rs] at h
        exact absurd h (by simp)
      | some init' =>
        rw [hI] at h
        obtain ⟨hhom', hmem'⟩ := pysortFBy_char (fun x : RowG => x.ordenCell) hI
        obtain ⟨hhomres, hmemres⟩ := ih init' res h hhom'
        refine ⟨hhomres, fun a => ?_⟩
        rw [hmemres a, hmem' a]
        simp only [List.mem_append, List.mem_cons, List.not_mem_nil, or_false]
        constructor
        · rintro ((ha | rfl) | ⟨ha, hpa⟩)
          · exact Or.inl ha
          · exact Or.inr ⟨Or.inl rfl, hp⟩
          · exact Or.inr ⟨Or.inr ha, hpa⟩
        · rintro (ha | ⟨rfl | ha, hpa⟩)
          · exact Or.inl (Or.inl ha)
          · exact Or.inl (Or.inr rfl)
          · exact Or.inr ⟨ha, hpa⟩
    · rw [if_neg hp] at h
      obtain ⟨hhomres, hmemres⟩ := ih init res h hhom
      refine ⟨hhomres, fun a => ?_⟩
      rw [hmemres a]
      simp only [List.mem_cons]
      constructor
      · rintro (ha | ⟨ha, hpa⟩)
        · exact Or.inl ha
        · exact Or.inr ⟨Or.inr ha, hpa⟩
      · rintro (ha | ⟨rfl | ha, hpa⟩)
        · exact Or.inl ha
        · exact absurd hpa hp
        · exact Or.inr ⟨ha, hpa⟩

theorem selectRowsG_char (project_id : String) (records : List RowG) {res : List RowG}
    (h : selectRowsG project_id records = some res) :
    (∃ t, homF (fun x => x.ordenCell) t res) ∧
      ∀ a, (a ∈ res ↔ a ∈ records ∧ rowPassG project_id a = true) := by
  obtain ⟨hhom, hmem⟩ :=
    foldl_selStepG_char project_id records [] res h ⟨true, by simp [homF]⟩
  exact ⟨hhom, fun a => by simpa using hmem a⟩

theorem selectRowsG_isSome (project_id : String) :
    ∀ (records init : List RowG),
      (∀ x ∈ records, rowPassG project_id x = true → cellIsInt x.ordenCell = true) →
      homF (fun x => x.ordenCell) true init →
      ∃ res, records.foldl (selStepG project_id) (some init) = some res := by
  intro records
  induction records with
  | nil => intro init _ _; exact ⟨init, rfl⟩
  | cons r rs ih =>
    intro init hall hinit
    by_cases hp : rowPassG project_id r = true
    · have happ : homF (fun x : RowG => x.ordenCell) true (init ++ [r]) := by
        intro y hy
        rcases List.mem_append.1 hy with hy | hy
        · exact hinit y hy
        · rw [List.mem_singleton.1 hy]
          exact hall r (by simp) hp
      obtain ⟨init', hI⟩ := pysortFBy_isSome (fun x : RowG => x.ordenCell) happ
      have hinit' : homF (fun x : RowG => x.ordenCell) true init' := by
        intro y hy
        exact happ y (((pysortFBy_char (fun x : RowG => x.ordenCell) hI).2 y).1 hy)
      obtain ⟨res, hres⟩ := ih init' (fun x hx hpx => hall x (by simp [hx]) hpx) hinit'
      refine ⟨res, ?_⟩
      simp only [List.foldl_cons]
      rw [selStepG_some, if_pos hp, hI]
      exact hres
    · obtain ⟨res, hres⟩ := ih init (fun x hx hpx => hall x (by simp [hx]) hpx) hinit
      refine ⟨res, ?_⟩
      simp only [List.foldl_cons]
      rw [selStepG_some, if_neg hp]
      exact hres

/-! ### Claims -/

/-- C1, counterexample to the claim as stated: the source compares
`record['visibilidad'] != 'no'` literally, without lower-casing, so a row
whose flag is `"No"` — which the claim says must be excluded, since its
lower-casing equals `"no"` — is kept by the selection loop, and its text is
rendered into the output. -/
theorem C1_counterexample :
    pyLower (Row.mk "p1" 1 "P" "No" "SECRET").visibilidad = "no" ∧
    (Row.mk "p1" 1 "P" "No" "SECRET") ∈
      selectRows "p1" [Row.mk "p1" 1 "P" "No" "SECRET"] ∧
    get_project_html "p1" [Row.mk "p1" 1 "P" "No" "SECRET"] =
      cssStyles ++ "<p>SECRET</p>" := by
  refine ⟨by decide, by decide, ?_⟩
  rw [get_project_html_eq]
  rw [show selectRows "p1" [Row.mk "p1" 1 "P" "No" "SECRET"] =
    [Row.mk "p1" 1 "P" "No" "SECRET"] from by decide]
  rfl

/-- C1 (amended): the selection loop of `get_project_html` excludes a row
whose visibility flag is literally `"no"`; every selected row has a flag
other than `"no"`; and any other flag value (case variants of `"no"`
included, the empty string included) leaves a group- and tag-matching row
selected. -/
theorem C1_visibility_filter (project_id : String) (records : List Row) (r : Row) :
    (r.visibilidad = "no" → r ∉ selectRows project_id records) ∧
    (∀ s ∈ selectRows project_id records, s.visibilidad ≠ "no") ∧
    (r ∈ records → r.ID_proyecto = project_id → r.nivel_texto ≠ "" →
      r.visibilidad ≠ "no" → r ∈ selectRows project_id records) := by
  refine ⟨?_, ?_, ?_⟩
  · intro hno hmem
    have hpass := ((mem_selectRows project_id records r).1 hmem).2
    exact ((rowPass_iff project_id r).1 hpass).2.2 hno
  · intro s hs
    exact ((rowPass_iff project_id s).1 ((mem_selectRows project_id records s).1 hs).2).2.2
  · intro hmem hid hniv hvis
    exact (mem_selectRows project_id records r).2
      ⟨hmem, (rowPass_iff project_id r).2 ⟨hid, hniv, hvis⟩⟩

/-- Witness for C1: with a literally-`"no"` row and an empty-flag row in the
same group, the first is excluded and the second is selected. -/
theorem C1_visibility_filter_witness :
    (Row.mk "p1" 1 "P" "no" "X") ∉
      selectRows "p1" [Row.mk "p1" 1 "P" "no" "X", Row.mk "p1" 2 "P" "" "Y"] ∧
    (Row.mk "p1" 2 "P" "" "Y") ∈
      selectRows "p1" [Row.mk "p1" 1 "P" "no" "X", Row.mk "p1" 2 "P" "" "Y"] :=
  ⟨(C1_visibility_filter "p1"
      [Row.mk "p1" 1 "P" "no" "X", Row.mk "p1" 2 "P" "" "Y"]
      (Row.mk "p1" 1 "P" "no" "X")).1 rfl,
   (C1_visibility_filter "p1"
      [Row.mk "p1" 1 "P" "no" "X", Row.mk "p1" 2 "P" "" "Y"]
      (Row.mk "p1" 2 "P" "" "Y")).2.2 (by decide) rfl (by decide) (by decide)⟩

/-- C3: the incremental re-sorting that `get_project_html` performs inside
its filter loop is equivalent to filtering once and sorting the surviving
set once with a stable ascending sort by `orden`; in particular the folded
sequence is ascending by `orden`. -/
theorem C3_incremental_resort_refines_filter_then_sort
    (project_id : String) (records : List Row) :
    selectRows project_id records = filterThenSortOnce project_id records ∧
    List.Pairwise (fun a b => a.orden ≤ b.orden) (selectRows project_id records) := by
  refine ⟨selectRows_eq project_id records, ?_⟩
  rw [selectRows_eq, filterThenSortOnce]
  simpa [ordenKey] using
    sorted_pysortBy ordenKey (records.filter (rowPass project_id))

/-- C2: for visible rows A and B of the requested group with
`A.orden < B.orden`, the output string of `get_project_html` is a
concatenation in which A's fragment occurs strictly before B's; the folded
sequence itself is sorted ascending by `orden`. -/
theorem C2_order_preservation (project_id : String) (records : List Row) (A B : Row)
    (hA : A ∈ records) (hB : B ∈ records)
    (hpA : rowPass project_id A = true) (hpB : rowPass project_id B = true)
    (hlt : A.orden < B.orden) :
    List.Pairwise (fun a b => a.orden ≤ b.orden) (selectRows project_id records) ∧
    ∃ pre mid post, get_project_html project_id records =
      pre ++ renderRow A ++ mid ++ renderRow B ++ post := by
  have hsorted : List.Pairwise (fun a b => ordenKey a ≤ ordenKey b)
      (selectRows project_id records) := by
    rw [selectRows_eq, filterThenSortOnce]
    exact sorted_pysortBy ordenKey (records.filter (rowPass project_id))
  refine ⟨by simpa [ordenKey] using hsorted, ?_⟩
  have hAmem : A ∈ selectRows project_id records :=
    (mem_selectRows project_id records A).2 ⟨hA, hpA⟩
  have hBmem : B ∈ selectRows project_id records :=
    (mem_selectRows project_id records B).2 ⟨hB, hpB⟩
  obtain ⟨l1, l2, l3, hsplit⟩ :=
    sorted_split ordenKey hsorted hAmem hBmem (by simpa [ordenKey] using hlt)
  refine ⟨cssStyles ++ htmlConcat l1, htmlConcat l2, htmlConcat l3, ?_⟩
  rw [get_project_html_eq, hsplit, htmlConcat_append, htmlConcat_cons,
    htmlConcat_append, htmlConcat_cons]
  simp [String.append_assoc]

/-- Witness for C2: the scenario rows of the spec, group `"p1"`, `H1` row
with `orden 1` before `P` row with `orden 2`, given out of order. -/
theorem C2_order_preservation_witness :
    List.Pairwise (fun a b => a.orden ≤ b.orden)
      (selectRows "p1" [Row.mk "p1" 2 "P" "" "World", Row.mk "p1" 1 "H1" "" "Hello"]) ∧
    ∃ pre mid post,
      get_project_html "p1" [Row.mk "p1" 2 "P" "" "World", Row.mk "p1" 1 "H1" "" "Hello"] =
        pre ++ renderRow (Row.mk "p1" 1 "H1" "" "Hello") ++ mid ++
          renderRow (Row.mk "p1" 2 "P" "" "World") ++ post :=
  C2_order_preservation "p1"
    [Row.mk "p1" 2 "P" "" "World", Row.mk "p1" 1 "H1" "" "Hello"]
    (Row.mk "p1" 1 "H1" "" "Hello") (Row.mk "p1" 2 "P" "" "World")
    (by decide) (by decide) (by decide) (by decide) (by decide)

/-- C4: group isolation as two-run noninterference — two record lists that
agree on the rows of the requested group render to the same output, so rows
of other groups cannot influence it; moreover every row the renderer folds
over belongs to the requested group. -/
theorem C4_group_isolation (project_id : String) (records1 records2 : List Row)
    (h : records1.filter (fun r => r.ID_proyecto == project_id) =
         records2.filter (fun r => r.ID_proyecto == project_id)) :
    get_project_html project_id records1 = get_project_html project_id records2 ∧
    ∀ r ∈ selectRows project_id records1, r.ID_proyecto = project_id := by
  have hsplit : ∀ l : List Row, l.filter (rowPass project_id) =
      (l.filter (fun r => r.ID_proyecto == project_id)).filter
        (fun r => r.nivel_texto != "" && r.visibilidad != "no") := by
    intro l
    rw [List.filter_filter]
    apply List.filter_congr
    intro a _
    simp only [rowPass]
    rw [Bool.and_comm]
  constructor
  · rw [get_project_html_eq, get_project_html_eq, selectRows_eq, selectRows_eq,
      filterThenSortOnce, filterThenSortOnce, hsplit records1, hsplit records2, h]
  · intro r hr
    exact ((rowPass_iff project_id r).1 ((mem_selectRows project_id records1 r).1 hr).2).1

/-- Witness for C4: two record lists that differ only in rows of other
groups render identically for group `"p1"`. -/
theorem C4_group_isolation_witness :
    get_project_html "p1" [Row.mk "p1" 1 "P" "" "A", Row.mk "p2" 1 "P" "" "B"] =
      get_project_html "p1"
        [Row.mk "p1" 1 "P" "" "A", Row.mk "p2" 9 "H1" "no" "EVIL", Row.mk "q" 0 "BR" "" ""] ∧
    ∀ r ∈ selectRows "p1" [Row.mk "p1" 1 "P" "" "A", Row.mk "p2" 1 "P" "" "B"],
      r.ID_proyecto = "p1" :=
  C4_group_isolation "p1"
    [Row.mk "p1" 1 "P" "" "A", Row.mk "p2" 1 "P" "" "B"]
    [Row.mk "p1" 1 "P" "" "A", Row.mk "p2" 9 "H1" "no" "EVIL", Row.mk "q" 0 "BR" "" ""]
    (by decide)

/-- C5: the dispatch of `get_project_html` depends on `nivel_texto` only
through `.strip().upper()` normalization: two rows with the same normalized
tag and the same text render to the same fragment. -/
theorem C5_tag_normalization (a b : Row)
    (htag : pyUpper (pyStrip a.nivel_texto) = pyUpper (pyStrip b.nivel_texto))
    (htex : a.texto = b.texto) :
    renderRow a = renderRow b := by
  simp only [renderRow, htag, htex]

/-- Witness for C5: a row tagged `" h1 "` renders byte-identically to the
same row tagged `"H1"`. -/
theorem C5_tag_normalization_witness :
    renderRow (Row.mk "p" 0 " h1 " "" "T") = renderRow (Row.mk "p" 0 "H1" "" "T") :=
  C5_tag_normalization (Row.mk "p" 0 " h1 " "" "T") (Row.mk "p" 0 "H1" "" "T")
    (by decide) rfl

/-- C6: a selected row whose normalized tag is not in the dispatch table
always renders through the paragraph fallback `<p>{text}</p>`; the dispatch
is a total function, so no tag value can fail. -/
theorem C6_unknown_tag_fallback (r : Row)
    (h : pyUpper (pyStrip r.nivel_texto) ∉ knownTags) :
    renderRow r = "<p>" ++ r.texto ++ "</p>" := by
  simp only [knownTags, List.mem_cons, List.not_mem_nil, or_false, not_or] at h
  obtain ⟨h1, h2, h3, h4, h5, h6, h7, h8, h9, h10, h11, h12, h13, h14, h15, h16,
    h17, h18, h19, h20, h21, h22, h23, h24, h25, h26, h27, h28, h29, h30, h31, h32⟩ := h
  simp only [renderRow, renderTag, h1, h2, h3, h4, h5, h6, h7, h8, h9, h10, h11, h12,
    h13, h14, h15, h16, h17, h18, h19, h20, h21, h22, h23, h24, h25, h26, h27, h28,
    h29, h30, h31, h32, or_self, if_false]

/-- Witness for C6: the spec's `"UNKNOWN_TAG"` example renders as a
paragraph. -/
theorem C6_unknown_tag_fallback_witness :
    renderRow (Row.mk "p" 0 "UNKNOWN_TAG" "" "T") =
      "<p>" ++ (Row.mk "p" 0 "UNKNOWN_TAG" "" "T").texto ++ "</p>" :=
  C6_unknown_tag_fallback (Row.mk "p" 0 "UNKNOWN_TAG" "" "T") (by decide)

/-- C7, counterexample to the claim as stated: the claim extends the
no-fault guarantee to an absent `order_key`, but when a surviving row's
`orden` cell is absent (the empty string beside a numeric cell),
`rows.sort(key=lambda x: x['orden'])` (main.py line 199) compares an `int`
with a `str` and raises `TypeError` — here both rows pass the filter and the
selection loop faults. -/
theorem C7_counterexample :
    rowPassG "p1" (RowG.mk "p1" (CellVal.int 1) "P" "" "A") = true ∧
    rowPassG "p1" (RowG.mk "p1" (CellVal.str "") "P" "" "B") = true ∧
    selectRowsG "p1"
      [RowG.mk "p1" (CellVal.int 1) "P" "" "A",
       RowG.mk "p1" (CellVal.str "") "P" "" "B"] = none := by
  refine ⟨by decide, by decide, ?_⟩
  decide

/-- C7 (amended): a row with an empty (absent) `nivel_texto` is never
selected, whatever its visibility; an absent `group_id`, `tag`, `visible`
or `text` is an ordinary value — in particular an empty `visibilidad`
counts as visible and the row is selected when group and tag match and the
loop completes; when every surviving row carries a numeric `orden` the loop
completes without fault; but a surviving row with an absent (string)
`orden` beside one with a numeric `orden` makes the sort comparison fault
(`TypeError`), the loud failure §7 of the spec mandates. -/
theorem C7_field_absence (project_id : String) (records : List RowG) (r r1 r2 : RowG) :
    (r.nivel_texto = "" → ∀ l, selectRowsG project_id records = some l → r ∉ l) ∧
    (r ∈ records → r.ID_proyecto = project_id → r.nivel_texto ≠ "" →
      r.visibilidad = "" → ∀ l, selectRowsG project_id records = some l → r ∈ l) ∧
    ((∀ x ∈ records, rowPassG project_id x = true → cellIsInt x.ordenCell = true) →
      ∃ l, selectRowsG project_id records = some l) ∧
    (r1 ∈ records → r2 ∈ records → rowPassG project_id r1 = true →
      rowPassG project_id r2 = true → cellIsInt r1.ordenCell = true →
      cellIsInt r2.ordenCell = false →
      selectRowsG project_id records = none) := by
  refine ⟨?_, ?_, ?_, ?_⟩
  · intro hniv l hl hmem
    have hpass := ((selectRowsG_char project_id records hl).2 r).1 hmem
    exact ((rowPassG_iff project_id r).1 hpass.2).2.1 hniv
  · intro hmem hid hniv hvis l hl
    refine ((selectRowsG_char project_id records hl).2 r).2 ⟨hmem, ?_⟩
    refine (rowPassG_iff project_id r).2 ⟨hid, hniv, ?_⟩
    rw [hvis]
    decide
  · intro hall
    exact selectRowsG_isSome project_id records [] hall (by simp [homF])
  · intro h1 h2 hp1 hp2 hi1 hi2
    cases hres : selectRowsG project_id records with
    | none => rfl
    | some res =>
      obtain ⟨⟨t, ht⟩, hmem⟩ := selectRowsG_char project_id records hres
      have hm1 : r1 ∈ res := (hmem r1).2 ⟨h1, hp1⟩
      have hm2 : r2 ∈ res := (hmem r2).2 ⟨h2, hp2⟩
      have := (ht r1 hm1).trans (ht r2 hm2).symm
      rw [hi1, hi2] at this
      exact absurd this (by simp)

/-- Witness for C7: an empty-tag row is dropped, an empty-visibility row is
kept when the loop completes, and a mixed numeric/absent `orden` pair among
the survivors faults the loop. -/
theorem C7_field_absence_witness :
    (RowG.mk "p1" (CellVal.int 2) "" "" "X") ∉
      [RowG.mk "p1" (CellVal.int 1) "P" "" "Y"] ∧
    (RowG.mk "p1" (CellVal.int 1) "P" "" "Y") ∈
      [RowG.mk "p1" (CellVal.int 1) "P" "" "Y"] ∧
    selectRowsG "p1"
      [RowG.mk "p1" (CellVal.int 1) "P" "" "A",
       RowG.mk "p1" (CellVal.str "") "P" "" "B"] = none :=
  ⟨(C7_field_absence "p1"
      [RowG.mk "p1" (CellVal.int 2) "" "" "X", RowG.mk "p1" (CellVal.int 1) "P" "" "Y"]
      (RowG.mk "p1" (CellVal.int 2) "" "" "X")
      (RowG.mk "p1" (CellVal.int 2) "" "" "X")
      (RowG.mk "p1" (CellVal.int 2) "" "" "X")).1 rfl
      [RowG.mk "p1" (CellVal.int 1) "P" "" "Y"] (by decide),
   (C7_field_absence "p1"
      [RowG.mk "p1" (CellVal.int 2) "" "" "X", RowG.mk "p1" (CellVal.int 1) "P" "" "Y"]
      (RowG.mk "p1" (CellVal.int 1) "P" "" "Y")
      (RowG.mk "p1" (CellVal.int 1) "P" "" "Y")
      (RowG.mk "p1" (CellVal.int 1) "P" "" "Y")).2.1 (by decide) rfl (by decide) rfl
      [RowG.mk "p1" (CellVal.int 1) "P" "" "Y"] (by decide),
   (C7_field_absence "p1"
      [RowG.mk "p1" (CellVal.int 1) "P" "" "A", RowG.mk "p1" (CellVal.str "") "P" "" "B"]
      (RowG.mk "p1" (CellVal.int 1) "P" "" "A")
      (RowG.mk "p1" (CellVal.int 1) "P" "" "A")
      (RowG.mk "p1" (CellVal.str "") "P" "" "B")).2.2.2 (by decide) (by decide)
      (by decide) (by decide) rfl rfl⟩

/-- C8, counterexample to the claim as stated: `get_projects` compares
`record['visible'] != 'no'` literally, without normalization, so a record
whose flag is `"No"` — whose lower-casing equals `"no"` and which the claim
therefore says is dropped — is returned. -/
theorem C8_counterexample :
    pyLower (ProjectRecord.mk 1 0 "No" "s").visible = "no" ∧
    (ProjectRecord.mk 1 0 "No" "s") ∈ get_projects [ProjectRecord.mk 1 0 "No" "s"] := by
  decide

/-- C8 (amended): `get_projects` returns exactly the records whose `visible`
value is not literally `"no"` and whose id is truthy, and although the code
sorts before filtering, the result equals filtering first and stable-sorting
the survivors by `orden` — in particular it is ascending by `orden`. -/
theorem C8_list_projects (records : List ProjectRecord) :
    get_projects records =
      pysortBy (fun x => x.orden)
        ((records.filter (fun x => x.visible != "no")).filter (fun x => x.id != 0)) ∧
    List.Pairwise (fun a b => a.orden ≤ b.orden) (get_projects records) := by
  constructor
  · rw [get_projects, filter_pysortBy, filter_pysortBy]
  · rw [get_projects]
    exact List.Pairwise.sublist
      ((List.filter_sublist _).trans (List.filter_sublist _))
      (sorted_pysortBy (fun x => x.orden) records)

/-- C9: `get_project_by_slug` matches slugs case-insensitively; when the
slug matches no record it parses the slug as an integer and retries the
lookup by id; and when that also misses (or the slug is not an integer) it
returns the structured not-found payload — a value, never a raised error. -/
theorem C9_slug_lookup (records : List ProjectRecord) (s t : String) :
    (pyLower s = pyLower t → slugHit records s = slugHit records t) ∧
    (∀ r, slugHit records s = some r → r.id ≠ 0 →
      get_project_by_slug records s = SlugResult.found r) ∧
    (∀ r, slugHit records s = some r → r.id = 0 →
      get_project_by_slug records s = SlugResult.foundNoId s) ∧
    (slugHit records s = none → ∀ n r, pyInt s = some n →
      records.find? (fun x => x.id == n) = some r →
      get_project_by_slug records s = SlugResult.found r) ∧
    (slugHit records s = none →
      (∀ n, pyInt s = some n → records.find? (fun x => x.id == n) = none) →
      get_project_by_slug records s = SlugResult.notFound s) := by
  refine ⟨?_, ?_, ?_, ?_, ?_⟩
  · intro h
    simp [slugHit, h]
  · intro r hr hid
    simp [get_project_by_slug, hr, hid]
  · intro r hr hid
    simp [get_project_by_slug, hr, hid]
  · intro hmiss n r hint hfind
    simp [get_project_by_slug, hmiss, hint, hfind]
  · intro hmiss hall
    cases hint : pyInt s with
    | none => simp [get_project_by_slug, hmiss, hint]
    | some n => simp [get_project_by_slug, hmiss, hint, hall n hint]

/-- Witness for C9: a slug that matches case-insensitively; a numeric slug
that misses as a slug and hits as an id; and a total miss returning the
not-found payload. -/
theorem C9_slug_lookup_witness :
    slugHit [ProjectRecord.mk 5 0 "" "Abc"] "aBC" =
      slugHit [ProjectRecord.mk 5 0 "" "Abc"] "ABC" ∧
    get_project_by_slug [ProjectRecord.mk 5 0 "" "Abc"] "5" =
      SlugResult.found (ProjectRecord.mk 5 0 "" "Abc") ∧
    get_project_by_slug [ProjectRecord.mk 5 0 "" "Abc"] "zz" =
      SlugResult.notFound "zz" :=
  ⟨(C9_slug_lookup [ProjectRecord.mk 5 0 "" "Abc"] "aBC" "ABC").1 (by decide),
   (C9_slug_lookup [ProjectRecord.mk 5 0 "" "Abc"] "5" "5").2.2.2.1 (by decide)
     5 (ProjectRecord.mk 5 0 "" "Abc") (by decide) (by decide),
   (C9_slug_lookup [ProjectRecord.mk 5 0 "" "Abc"] "zz" "zz").2.2.2.2 (by decide)
     (fun n hn => by
       rw [show pyInt "zz" = none from by decide] at hn
       exact Option.noConfusion hn)⟩

/-- C10: `get_home` builds its mapping with dict insert-or-assign semantics,
so looking a section up yields the text of the last input row carrying that
section name, and the mapping holds at most one entry per section. -/
theorem C10_home_last_wins (records : List HomeRecord) (s : String) :
    List.lookup s (get_home records) =
      ((records.filter (fun r => r.seccion == s)).getLast?).map (fun r => r.texto) ∧
    ((get_home records).map Prod.fst).Nodup := by
  constructor
  · rw [get_home, lookup_foldl_dictUpsert records [] s]
    simp [List.lookup]
  · exact nodup_keys_foldl_dictUpsert records [] (by simp)
